import Mathlib

/- Shallow embedding of the host-local IPAM core (Rust sources under src/):
   IP addresses and the pieces of `std::net` / the `ipnetwork` crate the code
   uses, `Range`/`RangeSet` (allocator/range.rs, allocator/rangeset.rs), the
   free-address iterator (allocator/rangeiter.rs), the file-backed store
   (store/filestore.rs) and the allocator (allocator/mod.rs). -/

namespace HostLocal

/-- `std::net::IpAddr`: an IPv4 or IPv6 address, carried as the numeric value
of its big-endian bytes (well-formed values satisfy `val < 2^32` resp.
`val < 2^128`). -/
inductive Ip where
  | v4 (val : Nat)
  | v6 (val : Nat)
deriving DecidableEq, Repr

/-- The numeric value of the address's big-endian bytes. -/
def Ip.val : Ip → Nat
  | .v4 v => v
  | .v6 v => v

/-- `IpAddr::is_ipv4`. -/
def Ip.is_ipv4 : Ip → Bool
  | .v4 _ => true
  | .v6 _ => false

/-- `IpAddr::is_ipv6`. -/
def Ip.is_ipv6 : Ip → Bool
  | .v4 _ => false
  | .v6 _ => true

/-- Bit width of the address family: 32 for IPv4, 128 for IPv6. -/
def Ip.width : Ip → Nat
  | .v4 _ => 32
  | .v6 _ => 128

/-- Rust's `Ord` on `IpAddr` (strict): every V4 address sorts below every V6
address; within one family the comparison is lexicographic on the big-endian
bytes, i.e. numeric on the value. -/
def Ip.blt : Ip → Ip → Bool
  | .v4 a, .v4 b => a < b
  | .v4 _, .v6 _ => true
  | .v6 _, .v4 _ => false
  | .v6 a, .v6 b => a < b

/-- Rust's `Ord` on `IpAddr` (non-strict). -/
def Ip.ble (a b : Ip) : Bool := a == b || Ip.blt a b

/-- Rebuild an address of the same family as `a` with value `v`. -/
def Ip.mkSame : Ip → Nat → Ip
  | .v4 _, v => .v4 v
  | .v6 _, v => .v6 v

/- ---------- text rendering (`IpAddr: Display`), used by the file store ---------- -/

/-- Decimal digit characters of one IPv4 octet. -/
def renderOctet (n : Nat) : List Char := Nat.toDigits 10 n

/-- Characters of the IPv4 dotted-decimal form `a.b.c.d`. -/
def renderV4chars (v : Nat) : List Char :=
  renderOctet (v / 16777216 % 256) ++ '.' :: renderOctet (v / 65536 % 256)
    ++ '.' :: renderOctet (v / 256 % 256) ++ '.' :: renderOctet (v % 256)

/-- Longest run of zero segments (start index, length); on ties the first
longest run wins, mirroring the scan in `std`'s `Ipv6Addr` formatter. -/
def lzrAux : List Nat → Nat → Nat × Nat → Nat × Nat → Nat × Nat
  | [], _, _, longest => longest
  | s :: rest, i, current, longest =>
    if s = 0 then
      let cur := if current.2 = 0 then (i, 1) else (current.1, current.2 + 1)
      let lng := if longest.2 < cur.2 then cur else longest
      lzrAux rest (i + 1) cur lng
    else lzrAux rest (i + 1) (0, 0) longest

/-- One segment rendered as 1-4 lowercase hex digits. -/
def renderHexSeg (n : Nat) : List Char := Nat.toDigits 16 n

/-- Characters of the canonical IPv6 text form as produced by `std`'s
formatter: the IPv4-mapped block `::ffff:a.b.c.d` is special-cased, otherwise
the first longest run of two or more zero segments is compressed to `::`. -/
def renderV6chars (v : Nat) : List Char :=
  if 281470681743360 ≤ v ∧ v < 281474976710656 then
    -- segments [0,0,0,0,0,0xffff,_,_]: IPv4-mapped form
    ':' :: ':' :: 'f' :: 'f' :: 'f' :: 'f' :: ':' :: renderV4chars (v % 4294967296)
  else
    let segs := (List.range 8).map (fun i => v / 2 ^ (16 * (7 - i)) % 65536)
    let run := lzrAux segs 0 (0, 0) (0, 0)
    if 1 < run.2 then
      List.intercalate [':'] ((segs.take run.1).map renderHexSeg)
        ++ ':' :: ':' :: List.intercalate [':'] ((segs.drop (run.1 + run.2)).map renderHexSeg)
    else
      List.intercalate [':'] (segs.map renderHexSeg)

/-- `IpAddr`'s `Display` rendering (`ip.to_string()` in the store). -/
def Ip.render : Ip → String
  | .v4 v => ⟨renderV4chars v⟩
  | .v6 v => ⟨renderV6chars v⟩

/- ---------- text parsing (`IpAddr: FromStr`), used by the file store ---------- -/

/-- Value of a decimal digit character. -/
def digitVal (c : Char) : Option Nat :=
  if '0' ≤ c ∧ c ≤ '9' then some (c.toNat - 48) else none

/-- Value of a hexadecimal digit character (either case). -/
def hexVal (c : Char) : Option Nat :=
  if '0' ≤ c ∧ c ≤ '9' then some (c.toNat - 48)
  else if 'a' ≤ c ∧ c ≤ 'f' then some (c.toNat - 87)
  else if 'A' ≤ c ∧ c ≤ 'F' then some (c.toNat - 55)
  else none

/-- Split a character list on a separator character. -/
def splitOnChar (sep : Char) : List Char → List (List Char)
  | [] => [[]]
  | c :: rest =>
    let r := splitOnChar sep rest
    if c = sep then [] :: r
    else
      match r with
      | [] => [[c]]
      | g :: gs => (c :: g) :: gs

/-- One IPv4 octet per `std`'s grammar: one to three decimal digits, no
leading zero (except `0` itself), value at most 255. -/
def parseOctet (cs : List Char) : Option Nat :=
  match cs.mapM digitVal with
  | none => none
  | some ds =>
    if ds.length = 0 ∨ 3 < ds.length then none
    else if 1 < ds.length ∧ ds.headD 1 = 0 then none
    else
      let v := ds.foldl (fun acc d => acc * 10 + d) 0
      if v ≤ 255 then some v else none

/-- `Ipv4Addr::from_str`: four dot-separated octets. -/
def parseV4 (cs : List Char) : Option Nat :=
  match (splitOnChar '.' cs).mapM parseOctet with
  | some [a, b, c, d] => some (a * 16777216 + b * 65536 + c * 256 + d)
  | _ => none

/-- One IPv6 segment: one to four hex digits. -/
def parseHexGroup (cs : List Char) : Option Nat :=
  match cs.mapM hexVal with
  | none => none
  | some ds =>
    if ds.length = 0 ∨ 4 < ds.length then none
    else some (ds.foldl (fun acc d => acc * 16 + d) 0)

/-- Split at the first `::`, when present. -/
def findDoubleColon : List Char → Option (List Char × List Char)
  | [] => none
  | [_] => none
  | a :: b :: rest =>
    if a = ':' ∧ b = ':' then some ([], rest)
    else (findDoubleColon (b :: rest)).map (fun p => (a :: p.1, p.2))

/-- `Ipv6Addr::from_str`, restricted to hex-group forms: eight colon-separated
groups, or fewer groups around one `::` compression. The `std` grammar also
accepts a trailing embedded IPv4 quad (`::ffff:1.2.3.4`), which no store
content in this development ever takes; that production is omitted. -/
def parseV6 (cs : List Char) : Option Nat :=
  let assemble : List Nat → Option Nat := fun segs =>
    some (segs.foldl (fun acc s => acc * 65536 + s) 0)
  match findDoubleColon cs with
  | none =>
    match (splitOnChar ':' cs).mapM parseHexGroup with
    | some segs => if segs.length = 8 then assemble segs else none
    | none => none
  | some (l, r) =>
    let lgroups : Option (List Nat) :=
      if l = [] then some [] else (splitOnChar ':' l).mapM parseHexGroup
    let rgroups : Option (List Nat) :=
      if r = [] then some [] else (splitOnChar ':' r).mapM parseHexGroup
    match lgroups, rgroups with
    | some ls, some rs =>
      if ls.length + rs.length ≤ 7 then
        assemble (ls ++ List.replicate (8 - ls.length - rs.length) 0 ++ rs)
      else none
    | _, _ => none

/-- `IpAddr::from_str`: the IPv4 grammar is tried first, then IPv6. -/
def Ip.parse (s : String) : Option Ip :=
  match parseV4 s.data with
  | some v => some (.v4 v)
  | none => (parseV6 s.data).map Ip.v6

/- ---------- `ipnetwork::IpNetwork`, the parts the code uses ---------- -/

/-- `ipnetwork::IpNetwork`: an address plus a prefix length (the source field
is called `prefix`, renamed here). -/
structure IpNetwork where
  addr : Ip
  prefixLen : Nat
deriving DecidableEq, Repr

/-- Size of the subnet's host block: `2^(width - prefix)`. -/
def IpNetwork.blockSize (n : IpNetwork) : Nat := 2 ^ (n.addr.width - n.prefixLen)

/-- `IpNetwork::network()`: the address with its host bits cleared.
`addr & mask` for the prefix mask equals rounding the value down to a
multiple of the block size. -/
def IpNetwork.network (n : IpNetwork) : Ip :=
  Ip.mkSame n.addr (n.addr.val / n.blockSize * n.blockSize)

/-- `IpNetwork::contains(ip)`: same family and `ip & mask == addr & mask`. -/
def IpNetwork.contains (n : IpNetwork) (ip : Ip) : Bool :=
  match n.addr, ip with
  | .v4 a, .v4 b => b / n.blockSize * n.blockSize == a / n.blockSize * n.blockSize
  | .v6 a, .v6 b => b / n.blockSize * n.blockSize == a / n.blockSize * n.blockSize
  | _, _ => false

/-- The second element of `subnet.iter()`: the crate's iterator walks the
whole block upward from the network address, so after one `next()` the next
element is `network + 1` — present exactly when the block holds at least two
addresses. `canonicalize` uses this for its start/gateway defaults. -/
def IpNetwork.second_ip (n : IpNetwork) : Option Ip :=
  if 2 ≤ n.blockSize then some (Ip.mkSame n.addr (n.network.val + 1)) else none

/- ---------- allocator/range.rs ---------- -/

/-- `Range` (allocator/range.rs): a subnet with optional start/end/gateway
bounds; `new` resolves the options via `canonicalize`. `end` is a keyword
here, so the field is `end_`. -/
structure Range where
  subnet : IpNetwork
  start : Option Ip
  end_ : Option Ip
  gateway : Option Ip
deriving DecidableEq, Repr

/-- `RangeError` (allocator/range.rs). -/
inductive RangeError where
  | TooSmallNetwork (n : IpNetwork)
  | WrongNetworkAddr (n : IpNetwork) (expected : Ip)
  | OutOfRangeIp (n : IpNetwork) (ip : Ip)
deriving DecidableEq, Repr

/-- `Range::last_ip`: set every host bit of the subnet address by OR-ing each
byte with the inverted mask byte — for a value below `2^width` that equals
`addr/B*B + (B-1)` with `B` the block size — then, for IPv4 only, decrement
the final byte (`octets[3] -= 1`; the wrapping release-mode semantics of that
byte subtraction is rendered explicitly, though no caller reaches the wrap:
`canonicalize` only calls this for IPv4 prefixes of at most 30, whose
broadcast ends in at least two set bits). For IPv6 there is no decrement. -/
def Range.last_ip (r : Range) : Ip :=
  match r.subnet.addr with
  | .v4 v =>
    let b := v / r.subnet.blockSize * r.subnet.blockSize + (r.subnet.blockSize - 1)
    .v4 (if b % 256 = 0 then b + 255 else b - 1)
  | .v6 v =>
    .v6 (v / r.subnet.blockSize * r.subnet.blockSize + (r.subnet.blockSize - 1))

/-- `Range::canonicalize`: reject IPv4 prefixes above 30 (`TooSmallNetwork`;
the IPv6 counterpart is a `// todo: ipv6 check` in the source), reject a
subnet address with host bits set (`WrongNetworkAddr`), then fill the
defaults: gateway and start default to the subnet's second address, end to
`last_ip`; explicit start/end must lie in the subnet (`OutOfRangeIp`).
Returns the updated range, as `Range::new` does on success. -/
def Range.canonicalize (r : Range) : Except RangeError Range :=
  if r.subnet.addr.is_ipv4 ∧ 30 < r.subnet.prefixLen then
    .error (.TooSmallNetwork r.subnet)
  else if r.subnet.addr ≠ r.subnet.network then
    .error (.WrongNetworkAddr r.subnet r.subnet.network)
  else
    let gateway := match r.gateway with
      | none => r.subnet.second_ip
      | some g => some g
    match r.start with
    | some ip =>
      if ¬ r.subnet.contains ip then .error (.OutOfRangeIp r.subnet ip)
      else
        match r.end_ with
        | some e =>
          if ¬ r.subnet.contains e then .error (.OutOfRangeIp r.subnet e)
          else .ok { r with gateway := gateway }
        | none => .ok { r with gateway := gateway, end_ := some r.last_ip }
    | none =>
      let start := r.subnet.second_ip
      match r.end_ with
      | some e =>
        if ¬ r.subnet.contains e then .error (.OutOfRangeIp r.subnet e)
        else .ok { r with gateway := gateway, start := start }
      | none => .ok { r with gateway := gateway, start := start, end_ := some r.last_ip }

/-- `Range::new(subnet, start, end, gateway)`. -/
def Range.new (subnet : IpNetwork) (start end_ gateway : Option Ip) :
    Except RangeError Range :=
  Range.canonicalize { subnet := subnet, start := start, end_ := end_, gateway := gateway }

/-- `Range::contains(ip)`: inside the subnet and within the `[start, end]`
bounds when those are present (absent bounds impose nothing). -/
def Range.contains (r : Range) (ip : Ip) : Bool :=
  if ¬ r.subnet.contains ip then false
  else if (match r.start with | some s => Ip.blt ip s | none => false) then false
  else if (match r.end_ with | some e => Ip.blt e ip | none => false) then false
  else true

/-- `Range::overlaps(other)`: mismatched families are `false` outright;
otherwise the source unwraps `other.start`, `other.end`, `self.start`,
`self.end` in that order inside a short-circuited disjunction — an unwrap of
an unresolved field panics, modelled as `none`. -/
def Range.overlaps (r other : Range) : Option Bool :=
  let same := (r.subnet.addr.is_ipv4 && other.subnet.addr.is_ipv4)
    || (r.subnet.addr.is_ipv6 && other.subnet.addr.is_ipv6)
  if !same then some false
  else
    match other.start with
    | none => none
    | some os =>
      if r.contains os then some true
      else
        match other.end_ with
        | none => none
        | some oe =>
          if r.contains oe then some true
          else
            match r.start with
            | none => none
            | some rs =>
              if other.contains rs then some true
              else
                match r.end_ with
                | none => none
                | some re => some (other.contains re)

/-- Modelled from the spec: `Range::is_same_familiy` is called by
`RangeSet::add` but missing from src/ — "families must match (IPv4 vs IPv4,
IPv6 vs IPv6)". -/
def Range.is_same_familiy (r other : Range) : Bool :=
  (r.subnet.addr.is_ipv4 && other.subnet.addr.is_ipv4)
    || (r.subnet.addr.is_ipv6 && other.subnet.addr.is_ipv6)

/- ---------- allocator/rangeset.rs ---------- -/

/-- `RangeSetError` (allocator/rangeset.rs). -/
inductive RangeSetError where
  | DifferentAddressType
  | Overlap (a b : Range)
  | NoRangeForIP (ip : Ip)
deriving DecidableEq, Repr

/-- `RangeSet` is a vector of `Range`s; modelled as the list itself. -/
abbrev RangeSet := List Range

/-- `RangeSet::get_range_for_ip`: first member (insertion order) containing
the address, else `NoRangeForIP`. -/
def RangeSet.get_range_for_ip (ranges : RangeSet) (ip : Ip) : Except RangeSetError Range :=
  match ranges.find? (fun r => r.contains ip) with
  | some r => .ok r
  | none => .error (.NoRangeForIP ip)

/-- The overlap scan of `RangeSet::add`: first overlapping member if any;
an `overlaps` panic (unresolved bounds) propagates as the outer `none`. -/
def overlapScan (range : Range) : List Range → Option (Option Range)
  | [] => some none
  | r :: rest =>
    match r.overlaps range with
    | none => none
    | some true => some (some r)
    | some false => overlapScan range rest

/-- `RangeSet::add`: a non-empty set rejects a family mismatch with its first
member, then any overlap with an existing member; otherwise the range is
appended. An `overlaps` panic propagates as `none`. -/
def RangeSet.add (ranges : RangeSet) (range : Range) : Option (Except RangeSetError RangeSet) :=
  match ranges with
  | [] => some (.ok [range])
  | first :: _ =>
    if ¬ first.is_same_familiy range then some (.error .DifferentAddressType)
    else
      match overlapScan range ranges with
      | none => none
      | some (some r) => some (.error (.Overlap r range))
      | some none => some (.ok (ranges ++ [range]))

/-- `RangeSet::contains`: some member contains the address. -/
def RangeSet.containsIp (ranges : RangeSet) (ip : Ip) : Bool :=
  ranges.any (fun r => r.contains ip)

/- ---------- allocator/rangeiter.rs ---------- -/

/-- `next_ip` (allocator/rangeiter.rs): read the address's bytes as a
big-endian `BigInt`, add one, take `to_bytes_be` and force the result into a
fixed-size array with `try_from(..).unwrap()`. `to_bytes_be` produces the
MINIMAL byte string, so the conversion succeeds — and the function returns
the numeric successor — exactly when `val + 1` needs the full 4 (resp. 16)
bytes, i.e. `2^24 ≤ val+1 < 2^32` (resp. `2^120 ≤ val+1 < 2^128`). Outside
that window `try_from` fails and the `unwrap` panics, modelled as `none`. -/
def next_ip : Ip → Option Ip
  | .v4 v => if 2 ^ 24 ≤ v + 1 ∧ v + 1 < 2 ^ 32 then some (.v4 (v + 1)) else none
  | .v6 v => if 2 ^ 120 ≤ v + 1 ∧ v + 1 < 2 ^ 128 then some (.v6 (v + 1)) else none

/-- The view of a `Range` that `RangeIter::next` (and allocator/mod.rs)
works with: `range.start`, `range.end` and `range.gateway` are read as plain
addresses, i.e. the bounds are taken as resolved. -/
structure CRange where
  subnet : IpNetwork
  start : Ip
  end_ : Ip
  gateway : Ip
deriving DecidableEq, Repr

/-- A canonicalized `Range` with all bounds resolved, as `CRange`. -/
def Range.resolved (r : Range) : Option CRange :=
  match r.start, r.end_, r.gateway with
  | some s, some e, some g => some { subnet := r.subnet, start := s, end_ := e, gateway := g }
  | _, _, _ => none

/-- `Range::contains` restricted to resolved bounds, as the allocator's
requested-address path evaluates it. -/
def CRange.contains (r : CRange) (ip : Ip) : Bool :=
  if ¬ r.subnet.contains ip then false
  else if Ip.blt ip r.start then false
  else if Ip.blt r.end_ ip then false
  else true

/-- `RangeIter` (allocator/rangeiter.rs): the range list plus the mutable
cursor (`range_index`, `current_ip`, `start_ip`). -/
structure RangeIter where
  range_set : List CRange
  range_index : Nat
  current_ip : Option Ip
  start_ip : Option Ip
deriving DecidableEq, Repr

/-- `RangeIter::next`, with a fuel bound on the source's gateway-skip
recursion (`return self.next()`); with fuel at least the remaining skip chain
the two agree, and every theorem below supplies enough fuel. Steps: with no
current address, start at the current range's start and record it as
`start_ip`; otherwise move past the range's end to the next range (index
wrapping modulo the range count) or to the numeric successor (`next_ip`; its
panic propagates as `none`). A missing `start_ip` is then filled with the new
cursor; otherwise reaching `start_ip` terminates the iterator; landing on the
current range's gateway recurses. Yields `(IpNetwork(ip, prefix), gateway)`
of the range the cursor ended in, plus the successor iterator state. -/
def RangeIter.nextAux : Nat → RangeIter → Option ((IpNetwork × Ip) × RangeIter)
  | 0, _ => none
  | fuel + 1, it =>
    match it.range_set.get? it.range_index with
    | none => none
    | some range =>
      match it.current_ip with
      | none =>
        let it1 := { it with current_ip := some range.start, start_ip := some range.start }
        if range.start = range.gateway then RangeIter.nextAux fuel it1
        else some ((⟨range.start, range.subnet.prefixLen⟩, range.gateway), it1)
      | some cur =>
        let step : Option (Nat × Ip × CRange) :=
          if cur = range.end_ then
            let idx := (it.range_index + 1) % it.range_set.length
            match it.range_set.get? idx with
            | none => none
            | some r2 => some (idx, r2.start, r2)
          else
            match next_ip cur with
            | none => none
            | some nxt => some (it.range_index, nxt, range)
        match step with
        | none => none
        | some (idx, cur2, range2) =>
          let it1 := { it with range_index := idx, current_ip := some cur2 }
          if it.start_ip = none then
            let it2 := { it1 with start_ip := some cur2 }
            if cur2 = range2.gateway then RangeIter.nextAux fuel it2
            else some ((⟨cur2, range2.subnet.prefixLen⟩, range2.gateway), it2)
          else if some cur2 = it.start_ip then none
          else if cur2 = range2.gateway then RangeIter.nextAux fuel it1
          else some ((⟨cur2, range2.subnet.prefixLen⟩, range2.gateway), it1)

/-- Collect the iterator's yields until it signals `None` (or fuel runs out;
all theorems supply enough fuel for the real terminating run). -/
def RangeIter.run : Nat → RangeIter → List (IpNetwork × Ip)
  | 0, _ => []
  | fuel + 1, it =>
    match RangeIter.nextAux (fuel + 1) it with
    | none => []
    | some (item, it') => item :: RangeIter.run fuel it'

/- ---------- store/filestore.rs ---------- -/

/-- `LINE_BREAK` (store/filestore.rs). -/
def LINE_BREAK : String := "\r\n"

/-- The owner key a claim file stores and `release_by_id`/`get_by_id` search
for: `id + LINE_BREAK + ifname`. -/
def storeKey (id ifname : String) : String := id ++ LINE_BREAK ++ ifname

/-- Substring containment (`str::contains(&key)`) over character lists. -/
def hasSub (key : List Char) : List Char → Bool
  | [] => key.isEmpty
  | c :: rest => key.isPrefixOf (c :: rest) || hasSub key rest

/-- The file store's directory, under the happy-path filesystem semantics
(no I/O errors): one claim file per reserved address (filename = the
address's text form, which is injective on addresses, so claims are keyed by
the address itself; content = owner key) and one `last_reserved_ip.<range_id>`
marker file per range id, held as its raw text content. -/
structure FileStoreState where
  claims : List (Ip × String)
  markers : List (String × String)
deriving DecidableEq, Repr

/-- The store with no files. -/
def FileStoreState.empty : FileStoreState := { claims := [], markers := [] }

/-- Content of the claim file for `ip`, when it exists. -/
def FileStoreState.findClaim (st : FileStoreState) (ip : Ip) : Option String :=
  (st.claims.find? (fun c => c.1 = ip)).map (fun c => c.2)

/-- Content of the `last_reserved_ip.<range_id>` marker file, when it exists. -/
def FileStoreState.marker (st : FileStoreState) (rid : String) : Option String :=
  (st.markers.find? (fun m => m.1 = rid)).map (fun m => m.2)

/-- Writing `new` at offset 0 of a file holding `old`: the open in
`record_last_reserved_ip` has no `truncate`, so bytes of `old` beyond
`new`'s length survive (all contents here are ASCII, so byte and character
positions agree). -/
def strOverwrite (old new : String) : String := ⟨new.data ++ old.data.drop new.data.length⟩

/-- `FileStore::record_last_reserved_ip`: open (create, read+write, NO
truncate) the marker file for `range_id` and write the address's text at
offset 0, leaving any longer previous content's tail in place. -/
def FileStoreState.record_last_reserved_ip (st : FileStoreState) (ip : Ip) (rid : String) :
    FileStoreState :=
  let newContent := match st.marker rid with
    | none => Ip.render ip
    | some old => strOverwrite old (Ip.render ip)
  { st with markers := (rid, newContent) :: st.markers.filter (fun m => ¬ m.1 = rid) }

/-- `FileStore::reserve`: `create_new` the claim file named by the address —
if it already exists the call returns `false` and changes nothing; otherwise
the owner key is written into it, and the last-reserved marker for `range_id`
is (partially, see `record_last_reserved_ip`) overwritten, returning `true`.
The source's I/O-failure branches (write error → the claim file is removed
and the error surfaces) are outside this happy-path model. -/
def FileStoreState.reserve (st : FileStoreState) (id ifname : String) (ip : Ip) (rid : String) :
    Bool × FileStoreState :=
  match st.findClaim ip with
  | some _ => (false, st)
  | none =>
    let st1 := { st with claims := (ip, storeKey id ifname) :: st.claims }
    (true, st1.record_last_reserved_ip ip rid)

/-- `FileStore::last_reserved_ip`: read the marker file and parse it as an
address; a missing file (I/O error) or a parse failure both surface as
errors, modelled as `none`. -/
def FileStoreState.last_reserved_ip (st : FileStoreState) (rid : String) : Option Ip :=
  (st.marker rid).bind Ip.parse

/-- `FileStore::release`: remove the claim file; a missing file is an I/O
error, modelled as `none`. -/
def FileStoreState.release (st : FileStoreState) (ip : Ip) : Option FileStoreState :=
  match st.findClaim ip with
  | none => none
  | some _ => some { st with claims := st.claims.filter (fun c => ¬ c.1 = ip) }

/-- `FileStore::release_by_id`: walk every file of the directory and remove
those whose content CONTAINS `id + LINE_BREAK + ifname` as a substring
(`data.contains(&key)`). The walk also visits the marker files, but their
content is an address's text, which never holds a CR/LF, while the key always
does — so only claim files can match, and the model filters the claims. -/
def FileStoreState.release_by_id (st : FileStoreState) (id ifname : String) : FileStoreState :=
  { st with claims := st.claims.filter (fun c => ! hasSub (storeKey id ifname).data c.2.data) }

/-- `FileStore::get_by_id`: every address whose claim file content contains
the owner key as a substring. Marker files are skipped by the source's
filename-parse filter (their names do not parse as addresses), matching the
model's restriction to claims; a claim's filename parses back to its
address. -/
def FileStoreState.get_by_id (st : FileStoreState) (id ifname : String) : List Ip :=
  (st.claims.filter (fun c => hasSub (storeKey id ifname).data c.2.data)).map (fun c => c.1)

/- ---------- allocator/mod.rs ---------- -/

/-- `AllocateError` (allocator/mod.rs). -/
inductive AllocateError where
  | GatewayIp (ip : Ip)
  | RangeSetError (e : RangeSetError)
  | StoreError
  | IpNotAvailable (ip : Ip)
  | DuplicateAllocation (ip : Ip) (id : String)
  | IpExhausted
deriving DecidableEq, Repr

/-- `IpConfig` (allocator/mod.rs). The source declares `gateway: IpAddr` but
`Allocator::get` never assigns it on any path (the file does not compile as
written); the unassigned value is modelled as an `Option` left `none`. -/
structure IpConfig where
  interface : Option Nat
  address : IpNetwork
  gateway : Option Ip
deriving DecidableEq, Repr

/-- `Allocator` (allocator/mod.rs): its `RangeSet` read through the resolved
view (`CRange`) that both the requested-address path (`range.subnet.prefix()`)
and the iterator use, plus the range id (stringified in `Allocator::new`).
The store is the file store, threaded explicitly as state. -/
structure Allocator where
  range_set : List CRange
  range_id : String

/-- `RangeSet::get_range_for_ip` as the allocator evaluates it over the
resolved view. -/
def Allocator.get_range_for_ip (ranges : List CRange) (ip : Ip) : Except RangeSetError CRange :=
  match ranges.find? (fun r => r.contains ip) with
  | some r => .ok r
  | none => .error (.NoRangeForIP ip)

/-- `Allocator::into_iter`: start from a fresh cursor on range 0; if the
store has a last-reserved address for this range id and the range set still
contains it, seat the cursor on it (first containing range, in order);
otherwise record range 0's start as the cycle's start address (the source
unwraps `get(0)` here — an empty range set panics; no theorem takes that
path, so the unwrap's failure is left as a `none` start). -/
def Allocator.into_iter (a : Allocator) (st : FileStoreState) : RangeIter :=
  let base : RangeIter := { range_set := a.range_set, range_index := 0, current_ip := none, start_ip := none }
  match st.last_reserved_ip a.range_id with
  | some ip =>
    if a.range_set.any (fun r => r.contains ip) then
      match a.range_set.findIdx? (fun r => r.contains ip) with
      | some index => { base with range_index := index, current_ip := some ip }
      | none => base
    else
      { base with start_ip := (a.range_set.get? 0).map (fun r => r.start) }
  | none =>
    { base with start_ip := (a.range_set.get? 0).map (fun r => r.start) }

/-- The candidate loop of `Allocator::get`'s no-requested-address path:
offer each iterator candidate to `Store::reserve`; the first success breaks
out of the loop with the reserved network, otherwise the loop ends with the
iterator's exhaustion. The store state threads through the attempts. Fuel
bounds the loop as in `RangeIter.run`. -/
def Allocator.reserveLoop (id ifname rid : String) :
    Nat → RangeIter → FileStoreState → Option IpNetwork × FileStoreState
  | 0, _, st => (none, st)
  | fuel + 1, it, st =>
    match RangeIter.nextAux (fuel + 1) it with
    | none => (none, st)
    | some ((ip_net, _), it') =>
      let r := st.reserve id ifname ip_net.addr rid
      if r.1 then (some ip_net, r.2)
      else Allocator.reserveLoop id ifname rid fuel it' r.2

/-- `Allocator::get`, as written in the source. Requested-address path: find
the owning range (else the `RangeSetError` surfaces), attempt `reserve` —
`false` is `IpNotAvailable`, success yields `IpConfig` with the requested
address under the owning range's prefix (and the never-assigned gateway).
There is NO gateway-equality check on this path, although the `GatewayIp`
variant exists for it.  No-requested-address path: any address already
recorded for (id, ifname) that no current range contains fails with
`DuplicateAllocation`; then the candidate loop runs — but the source's
`break` only leaves the loop, after which the function unconditionally
returns `IpExhausted`, so this path never returns a success even when a
reservation was made (the store keeps the claim). Store errors cannot arise
in the happy-path store model. -/
def Allocator.get (fuel : Nat) (a : Allocator) (st : FileStoreState)
    (id ifname : String) (requested_ip : Option Ip) :
    Except AllocateError IpConfig × FileStoreState :=
  match requested_ip with
  | some ip =>
    match Allocator.get_range_for_ip a.range_set ip with
    | .error e => (.error (.RangeSetError e), st)
    | .ok range =>
      let r := st.reserve id ifname ip a.range_id
      if !r.1 then (.error (.IpNotAvailable ip), r.2)
      else (.ok { interface := none, address := ⟨ip, range.subnet.prefixLen⟩, gateway := none }, r.2)
  | none =>
    let allocated := st.get_by_id id ifname
    match allocated.find? (fun ip =>
        match Allocator.get_range_for_ip a.range_set ip with
        | .error _ => true
        | .ok _ => false) with
    | some ip => (.error (.DuplicateAllocation ip id), st)
    | none =>
      let r := Allocator.reserveLoop id ifname a.range_id fuel (a.into_iter st) st
      (.error .IpExhausted, r.2)

/- ---------- specification-side definitions (for comparing the iterator
against the spec's words) and well-formedness predicates ---------- -/

/-- Specification-side: the addresses `a` of the range with
`start ≤ a ≤ end`, in ascending order (empty when start and end do not share
a family or start exceeds end). -/
def CRange.ips (r : CRange) : List Ip :=
  match r.start, r.end_ with
  | .v4 s, .v4 e => (List.range (e + 1 - s)).map (fun k => .v4 (s + k))
  | .v6 s, .v6 e => (List.range (e + 1 - s)).map (fun k => .v6 (s + k))
  | _, _ => []

/-- Specification-side: the addresses of the range strictly after `a`
(up to `end`), in ascending order. -/
def CRange.afterIps (r : CRange) (a : Ip) : List Ip :=
  (List.range (r.end_.val - a.val)).map (fun k => Ip.mkSame r.start (a.val + 1 + k))

/-- The pair the iterator yields for address `x` of range `r`. -/
def CRange.item (r : CRange) (x : Ip) : IpNetwork × Ip :=
  (⟨x, r.subnet.prefixLen⟩, r.gateway)

/-- Specification-side: the yields a list of candidate addresses of `r`
produces — the range's own gateway dropped, each address paired with the
range's prefix and gateway. -/
def CRange.freeItems (r : CRange) (l : List Ip) : List (IpNetwork × Ip) :=
  (l.filter (fun x => x ≠ r.gateway)).map r.item

/-- Specification-side: the full expected output of a fresh iterator — every
member range's `[start, end]` addresses except its gateway, in range order. -/
def specRun (ranges : List CRange) : List (IpNetwork × Ip) :=
  (ranges.map (fun r => r.freeItems r.ips)).flatten

/-- Specification-side: the expected remaining output of an iterator whose
cursor sits on address `a` of range `i`. -/
def specTail (ranges : List CRange) (i : Nat) (a : Ip) : List (IpNetwork × Ip) :=
  match ranges.get? i with
  | none => []
  | some r =>
    r.freeItems (r.afterIps a) ++ ((ranges.drop (i + 1)).map (fun r => r.freeItems r.ips)).flatten

/-- A range the iterator can traverse faithfully: bounds of one family in
order, values inside the family's width, and high enough that every
increment's successor still renders to full fixed-width bytes (`next_ip`
panics below `2^(width-8)`, see `next_ip`). -/
def CRange.iterWF (r : CRange) : Prop :=
  r.start.is_ipv6 = r.end_.is_ipv6 ∧ r.start.val ≤ r.end_.val ∧
    r.end_.val < 2 ^ r.start.width ∧ 2 ^ (r.start.width - 8) ≤ r.start.val + 1

/-- Disjointness of two ranges' `[start, end]` intervals (in the `IpAddr`
order), as the RangeSet invariant provides for canonical member ranges. -/
def ivDisj (r1 r2 : CRange) : Prop :=
  Ip.blt r1.end_ r2.start = true ∨ Ip.blt r2.end_ r1.start = true

/-- Membership of an address in a range's `[start, end]` interval. -/
def inIv (r : CRange) (x : Ip) : Prop :=
  Ip.ble r.start x = true ∧ Ip.ble x r.end_ = true

/-- Total number of `[start, end]` interval addresses over the whole set:
the fuel the traversal theorems measure against. -/
def sumSizes (l : List CRange) : Nat :=
  (l.map (fun r => r.end_.val + 1 - r.start.val)).sum

/-- Remaining-step measure of a cursor on address `a` of range `i`. -/
def remFrom (ranges : List CRange) (i : Nat) (a : Ip) : Nat :=
  (match ranges.get? i with | some r => r.end_.val - a.val | none => 0)
    + sumSizes (ranges.drop (i + 1))

/- ---------- concrete fixtures used by the claim theorems ---------- -/

/-- The test range of the sources: subnet `10.1.0.0/16`, start `10.1.0.1`,
end `10.1.0.5`, gateway `10.1.0.4` (resolved view). -/
def demoRange : CRange :=
  { subnet := ⟨Ip.v4 167837696, 16⟩, start := Ip.v4 167837697,
    end_ := Ip.v4 167837701, gateway := Ip.v4 167837700 }

/-- An allocator over the single demo range, range id `"0"`. -/
def demoAllocator : Allocator := { range_set := [demoRange], range_id := "0" }

/-- A reversed-bounds range `Range::new` accepts: subnet `10.1.0.0/16`,
start `10.1.0.5`, end `10.1.0.1`, gateway `10.1.0.2` — `canonicalize` never
compares start with end. -/
def backRange : Range :=
  { subnet := ⟨Ip.v4 167837696, 16⟩, start := some (Ip.v4 167837701),
    end_ := some (Ip.v4 167837697), gateway := some (Ip.v4 167837698) }

/-- The `backRange` bounds as the iterator reads them. -/
def backCRange : CRange :=
  { subnet := ⟨Ip.v4 167837696, 16⟩, start := Ip.v4 167837701,
    end_ := Ip.v4 167837697, gateway := Ip.v4 167837698 }

/-- An IPv6 range `::/126` with explicit start `::` (all bounds resolved). -/
def v6LowRange : Range :=
  { subnet := ⟨Ip.v6 0, 126⟩, start := some (Ip.v6 0),
    end_ := some (Ip.v6 3), gateway := some (Ip.v6 1) }

/-- The degenerate range `Range::new` builds from the IPv6 subnet `::/128`:
a single-address block, whose start and gateway defaults stay unresolved
(the block has no second address) while end resolves. -/
def v6SingleRange : Range :=
  { subnet := ⟨Ip.v6 0, 128⟩, start := none, end_ := some (Ip.v6 0), gateway := none }

instance (r : CRange) : Decidable r.iterWF := by
  unfold CRange.iterWF
  infer_instance

instance (r1 r2 : CRange) : Decidable (ivDisj r1 r2) := by
  unfold ivDisj
  infer_instance

/- ==================== helper lemmas ==================== -/

/-- An address reporting IPv4 has width 32. -/
theorem Ip.width_of_v4 {a : Ip} (h : a.is_ipv4 = true) : a.width = 32 := by
  cases a with
  | v4 _ => rfl
  | v6 _ => simp [Ip.is_ipv4] at h

/-- A block of at least two addresses has a second address. -/
theorem second_ip_isSome {n : IpNetwork} (h : 2 ≤ n.blockSize) : n.second_ip.isSome = true := by
  simp [IpNetwork.second_ip, h]

/-- The shape of a successful `canonicalize`: subnet unchanged, explicit
bounds kept, absent bounds filled with the documented defaults. -/
theorem canonicalize_ok_shape {r r' : Range} (h : Range.canonicalize r = .ok r') :
    r'.subnet = r.subnet ∧
    r'.start = (match r.start with | some s => some s | none => r.subnet.second_ip) ∧
    r'.end_ = (match r.end_ with | some e => some e | none => some r.last_ip) ∧
    r'.gateway = (match r.gateway with | some g => some g | none => r.subnet.second_ip) := by
  unfold Range.canonicalize at h
  repeat' split at h
  all_goals first
    | (simp only [Except.ok.injEq] at h; subst h; simp_all)
    | simp at h

/-- A successful `canonicalize` passed the prefix and network-address checks. -/
theorem canonicalize_ok_checks {r r' : Range} (h : Range.canonicalize r = .ok r') :
    ¬ (r.subnet.addr.is_ipv4 = true ∧ 30 < r.subnet.prefixLen) ∧
    r.subnet.addr = r.subnet.network := by
  unfold Range.canonicalize at h
  split at h
  · simp at h
  · rename_i hsmall
    split at h
    · simp at h
    · rename_i hnet
      exact ⟨hsmall, not_not.mp hnet⟩

/-- Substring containment is reflexive (`hasSub l l`). -/
theorem hasSub_self (l : List Char) : hasSub l l = true := by
  cases l with
  | nil => rfl
  | cons c rest => simp [hasSub, List.isPrefixOf_iff_prefix]

/- ==================== claim theorems ==================== -/

/-- Claim C5: `next_ip` was claimed to return the numeric successor for every
address except the family's all-ones value. In fact `to_bytes_be` yields the
MINIMAL byte string and `<[u8; N]>::try_from(..).unwrap()` demands exactly 4
(resp. 16) bytes, so `next_ip` panics on any address whose successor's top
byte is zero: already `0.0.0.1` (successor `0.0.0.2`) and `::1` fail, while
addresses with a non-zero leading byte (here `10.1.0.1`) do succeed. -/
theorem next_ip_small_address_panics :
    next_ip (Ip.v4 1) = none ∧ next_ip (Ip.v6 1) = none ∧
    next_ip (Ip.v4 167837697) = some (Ip.v4 167837698) ∧
    next_ip (Ip.v6 (2 ^ 120)) = some (Ip.v6 (2 ^ 120 + 1)) :=
  ⟨rfl, rfl, by norm_num [next_ip], by norm_num [next_ip]⟩

/-- Claim C6: the `TooSmallNetwork` rejection exists only for IPv4 — every
IPv4 prefix above 30 is rejected, but the IPv6 analogue is a
`// todo: ipv6 check` in `canonicalize`, so even the single-address subnet
`::/128` constructs successfully. -/
theorem tooSmallNetwork_is_v4_only :
    (∀ (v p : Nat) (s e g : Option Ip), 30 < p →
        Range.new ⟨Ip.v4 v, p⟩ s e g = .error (.TooSmallNetwork ⟨Ip.v4 v, p⟩)) ∧
    Range.new ⟨Ip.v6 0, 128⟩ none none none = .ok v6SingleRange := by
  refine ⟨?_, by rfl⟩
  intro v p s e g hp
  simp [Range.new, Range.canonicalize, Ip.is_ipv4, hp]

/-- Witness for C6 at concrete inputs: `10.1.0.0/31` is rejected. -/
theorem tooSmallNetwork_is_v4_only_witness :
    Range.new ⟨Ip.v4 167837696, 31⟩ none none none =
      .error (.TooSmallNetwork ⟨Ip.v4 167837696, 31⟩) :=
  tooSmallNetwork_is_v4_only.1 167837696 31 none none none (by norm_num)

/-- Claim C10: constructed `Range`s were claimed to always carry resolved
start/end/gateway. That invariant does hold on IPv4 (first conjunct), but
the IPv6 subnet `::/128` constructs with `start` and `gateway` unresolved,
and `overlaps` on the resulting range reaches `start.unwrap()` and panics
(last conjunct, the panic modelled as `none`). -/
theorem range_bounds_resolved_only_for_v4 :
    (∀ (n : IpNetwork) (s e g : Option Ip) (r : Range), n.addr.is_ipv4 = true →
        Range.new n s e g = .ok r →
        r.start.isSome ∧ r.end_.isSome ∧ r.gateway.isSome) ∧
    Range.new ⟨Ip.v6 0, 128⟩ none none none = .ok v6SingleRange ∧
    v6SingleRange.start = none ∧
    Range.overlaps v6SingleRange v6SingleRange = none := by
  refine ⟨?_, by rfl, rfl, by rfl⟩
  intro n s e g r hv4 h
  unfold Range.new at h
  have hck1 : ¬ (n.addr.is_ipv4 = true ∧ 30 < n.prefixLen) := (canonicalize_ok_checks h).1
  have hsh := canonicalize_ok_shape h
  have hple : n.prefixLen ≤ 30 := by
    by_contra hx
    exact hck1 ⟨hv4, by omega⟩
  have hbs : 2 ≤ IpNetwork.blockSize n := by
    unfold IpNetwork.blockSize
    rw [Ip.width_of_v4 hv4]
    calc (2 : Nat) = 2 ^ 1 := rfl
    _ ≤ 2 ^ (32 - n.prefixLen) := Nat.pow_le_pow_right (by omega) (by omega)
  have hsec := second_ip_isSome hbs
  obtain ⟨-, h2, h3, h4⟩ := hsh
  refine ⟨?_, ?_, ?_⟩
  · cases s <;> simp_all
  · cases e <;> simp_all
  · cases g <;> simp_all

/-- Witness for C10 at a concrete input: `10.1.0.0/16` constructs with all
bounds resolved. -/
theorem range_bounds_resolved_only_for_v4_witness :
    Range.new ⟨Ip.v4 167837696, 16⟩ none none none =
      .ok { subnet := ⟨Ip.v4 167837696, 16⟩, start := some (Ip.v4 167837697),
            end_ := some (Ip.v4 167903230), gateway := some (Ip.v4 167837697) } ∧
    ((some (Ip.v4 167837697)).isSome ∧ (some (Ip.v4 167903230)).isSome ∧
      (some (Ip.v4 167837697)).isSome) :=
  ⟨by rfl,
   range_bounds_resolved_only_for_v4.1 ⟨Ip.v4 167837696, 16⟩ none none none _ rfl (by rfl)⟩

/-- Claim C3: requesting the owning range's gateway address was claimed to
fail with `GatewayIp` before any reservation. The source's requested-address
path performs no gateway comparison at all (the `GatewayIp` variant is never
constructed): requesting `10.1.0.4` — `demoRange`'s gateway — RESERVES the
gateway and returns it as an `Ok` result. -/
theorem requested_gateway_not_rejected :
    demoRange.gateway = Ip.v4 167837700 ∧
    Allocator.get 100 demoAllocator FileStoreState.empty "id" "eth0" (some (Ip.v4 167837700)) =
      (.ok { interface := none, address := ⟨Ip.v4 167837700, 16⟩, gateway := none },
       { claims := [(Ip.v4 167837700, storeKey "id" "eth0")],
         markers := [("0", "10.1.0.4")] }) :=
  ⟨rfl, by rfl⟩

/-- Claim C2: a successful reservation in the no-requested-address path was
claimed to be returned as the `Ok` result. In the source the loop's `break`
falls through to an unconditional `return Err(IpExhausted)` (and the result
gateway is never assigned), so the path errors with `IpExhausted` even
though the store now holds the successfully reserved first candidate
`10.1.0.1`, as the resulting store state shows. -/
theorem get_exhausted_despite_successful_reserve :
    Allocator.get 100 demoAllocator FileStoreState.empty "id" "eth0" none =
      (.error .IpExhausted,
       { claims := [(Ip.v4 167837697, storeKey "id" "eth0")],
         markers := [("0", "10.1.0.1")] }) := by
  rfl

/-- Claim C1 (amended): `reserve` returns `true` exactly when no claim file
for the address existed, creating the claim with the owner key as content;
`false` leaves the store untouched. On success the last-reserved marker for
`range_id` is overwritten WITHOUT truncation, so its new content is the
address's text followed by any longer previous content's tail — hence
`last_reserved_ip` returns the reserved address when the previous marker was
not longer, in particular in the spec's two-call `2.2.2.2` scenario (final
conjuncts), but not in general (see the counterexample theorem). -/
theorem reserve_spec (st : FileStoreState) (id ifname : String) (ip : Ip) (rid : String) :
    ((st.reserve id ifname ip rid).1 = true ↔ st.findClaim ip = none) ∧
    ((st.reserve id ifname ip rid).1 = true →
      (st.reserve id ifname ip rid).2.findClaim ip = some (storeKey id ifname) ∧
      (st.reserve id ifname ip rid).2.marker rid =
        some (match st.marker rid with
              | none => Ip.render ip
              | some old => strOverwrite old (Ip.render ip))) ∧
    ((st.reserve id ifname ip rid).1 = false → (st.reserve id ifname ip rid).2 = st) ∧
    (FileStoreState.empty.reserve "123456" "eth0" (Ip.v4 33686018) "1").1 = true ∧
    ((FileStoreState.empty.reserve "123456" "eth0" (Ip.v4 33686018) "1").2.reserve "other" "eth0"
        (Ip.v4 33686018) "1").1 = false ∧
    (FileStoreState.empty.reserve "123456" "eth0" (Ip.v4 33686018) "1").2.last_reserved_ip "1" =
      some (Ip.v4 33686018) := by
  refine ⟨?_, ?_, ?_, by rfl, by rfl, by rfl⟩
  · cases hc : st.findClaim ip with
    | some content => simp only [FileStoreState.reserve, hc]; try simp
    | none => simp only [FileStoreState.reserve, hc]; try simp
  · intro htrue
    cases hc : st.findClaim ip with
    | some content =>
      rw [FileStoreState.reserve, hc] at htrue
      simp at htrue
    | none =>
      refine ⟨?_, ?_⟩
      · simp only [FileStoreState.reserve, hc]
        simp [FileStoreState.findClaim, FileStoreState.record_last_reserved_ip,
          FileStoreState.marker, List.find?_cons]
      · simp only [FileStoreState.reserve, hc]
        simp [FileStoreState.record_last_reserved_ip, FileStoreState.marker, List.find?_cons]
  · intro hfalse
    cases hc : st.findClaim ip with
    | some content => simp only [FileStoreState.reserve, hc]
    | none =>
      rw [FileStoreState.reserve, hc] at hfalse
      simp at hfalse

/-- Counterexample for C1 as frozen: reserving `10.1.0.100` and then
`10.1.0.2` for the same range id leaves the marker file reading
`10.1.0.200` — the second successful `reserve` did NOT record `10.1.0.2` as
the last-reserved address, because the marker write never truncates the
longer previous content. -/
theorem reserve_marker_residue :
    ((FileStoreState.empty.reserve "a" "eth0" (Ip.v4 167837796) "1").2.reserve
        "a" "eth0" (Ip.v4 167837698) "1").1 = true ∧
    ((FileStoreState.empty.reserve "a" "eth0" (Ip.v4 167837796) "1").2.reserve
        "a" "eth0" (Ip.v4 167837698) "1").2.last_reserved_ip "1" = some (Ip.v4 167837896) ∧
    Ip.v4 167837896 ≠ Ip.v4 167837698 :=
  ⟨rfl, by rfl, by decide⟩

/-- Claim C9 (amended): `release_by_id` removes exactly the claims whose
content CONTAINS `id + CRLF + ifname` as a substring — every claim of the
exact owner is removed (second conjunct, the key contains itself), but so is
any claim whose owner key merely embeds the searched key, so claims of other
owners can be removed too (see the counterexample theorem). Marker files
never match (their content has no CRLF) and are untouched. -/
theorem release_by_id_spec (st : FileStoreState) (id ifname : String) :
    (∀ (ip : Ip) (content : String), (ip, content) ∈ (st.release_by_id id ifname).claims ↔
        ((ip, content) ∈ st.claims ∧ hasSub (storeKey id ifname).data content.data = false)) ∧
    (∀ ip : Ip, (ip, storeKey id ifname) ∉ (st.release_by_id id ifname).claims) ∧
    (st.release_by_id id ifname).markers = st.markers := by
  refine ⟨?_, ?_, rfl⟩
  · intro ip content
    simp [FileStoreState.release_by_id, List.mem_filter]
  · intro ip hmem
    have h2 := (List.mem_filter.mp hmem).2
    simp [hasSub_self] at h2

/-- Witness for C9 at a concrete store: releasing (`"a"`, `"eth0"`) removes
exactly the claim owned by it and keeps another owner's claim. -/
theorem release_by_id_spec_witness :
    ((Ip.v4 5, storeKey "b" "eth1") ∈
        (FileStoreState.release_by_id
          { claims := [(Ip.v4 4, storeKey "a" "eth0"), (Ip.v4 5, storeKey "b" "eth1")],
            markers := [] } "a" "eth0").claims ↔
      ((Ip.v4 5, storeKey "b" "eth1") ∈
          [(Ip.v4 4, storeKey "a" "eth0"), (Ip.v4 5, storeKey "b" "eth1")] ∧
        hasSub (storeKey "a" "eth0").data (storeKey "b" "eth1").data = false)) ∧
    (Ip.v4 4, storeKey "a" "eth0") ∉
      (FileStoreState.release_by_id
        { claims := [(Ip.v4 4, storeKey "a" "eth0"), (Ip.v4 5, storeKey "b" "eth1")],
          markers := [] } "a" "eth0").claims :=
  ⟨(release_by_id_spec
      { claims := [(Ip.v4 4, storeKey "a" "eth0"), (Ip.v4 5, storeKey "b" "eth1")],
        markers := [] } "a" "eth0").1 (Ip.v4 5) (storeKey "b" "eth1"),
   (release_by_id_spec
      { claims := [(Ip.v4 4, storeKey "a" "eth0"), (Ip.v4 5, storeKey "b" "eth1")],
        markers := [] } "a" "eth0").2.1 (Ip.v4 4)⟩

/-- Counterexample for C9 as frozen: the claim owned by (`"ab"`, `"cd"`)
stores `"ab\r\ncd"`, which contains `"b\r\nc"` — so
`release_by_id("b", "c")` removes a claim belonging to a DIFFERENT owner. -/
theorem release_by_id_cross_owner :
    (FileStoreState.release_by_id
        { claims := [(Ip.v4 1, storeKey "ab" "cd")], markers := [] } "b" "c").claims = [] ∧
    storeKey "ab" "cd" ≠ storeKey "b" "c" :=
  ⟨by rfl, by decide⟩

/-- Claim C7 (amended): for an aligned subnet, `Range::new` with omitted
bounds resolves start and gateway to the subnet's second address in both
families; the default END is the broadcast-minus-one for IPv4 but the
ALL-ONES address itself for IPv6 (`last_ip` decrements the final byte only
in its IPv4 arm). -/
theorem range_default_bounds :
    (∀ v p : Nat, p ≤ 30 → v % 2 ^ (32 - p) = 0 →
      Range.new ⟨Ip.v4 v, p⟩ none none none =
        .ok { subnet := ⟨Ip.v4 v, p⟩, start := some (Ip.v4 (v + 1)),
              end_ := some (Ip.v4 (v + 2 ^ (32 - p) - 2)), gateway := some (Ip.v4 (v + 1)) }) ∧
    (∀ v p : Nat, p ≤ 126 → v % 2 ^ (128 - p) = 0 →
      Range.new ⟨Ip.v6 v, p⟩ none none none =
        .ok { subnet := ⟨Ip.v6 v, p⟩, start := some (Ip.v6 (v + 1)),
              end_ := some (Ip.v6 (v + 2 ^ (128 - p) - 1)), gateway := some (Ip.v6 (v + 1)) }) := by
  constructor
  · intro v p hp hv
    have hnet : v / 2 ^ (32 - p) * 2 ^ (32 - p) = v :=
      Nat.div_mul_cancel (Nat.dvd_of_mod_eq_zero hv)
    have hBeq : (2:Nat) ^ (32 - p) = 2 ^ (30 - p) * 4 := by
      have h32 : 32 - p = (30 - p) + 2 := by omega
      rw [h32, pow_add]; norm_num
    have hB4 : (2:Nat) ^ (32 - p) % 4 = 0 := by rw [hBeq]; exact Nat.mul_mod_left _ _
    have hBge : (4:Nat) ≤ 2 ^ (32 - p) := by
      rw [hBeq]
      have h1 : (1:Nat) ≤ 2 ^ (30 - p) := Nat.one_le_two_pow
      omega
    have hv4 : v % 4 = 0 :=
      Nat.mod_eq_zero_of_dvd
        (dvd_trans (Nat.dvd_of_mod_eq_zero hB4) (Nat.dvd_of_mod_eq_zero hv))
    have hbmod : ¬ (v / 2 ^ (32 - p) * 2 ^ (32 - p) + (2 ^ (32 - p) - 1)) % 256 = 0 := by
      rw [hnet]
      omega
    unfold Range.new Range.canonicalize
    rw [if_neg (by simp [Ip.is_ipv4]; omega)]
    rw [if_neg (by
      simp only [ne_eq, not_not, IpNetwork.network, IpNetwork.blockSize, Ip.width,
        Ip.mkSame, Ip.val]
      rw [hnet])]
    have h2B : (2:Nat) ≤ 2 ^ (32 - p) := by omega
    simp only [IpNetwork.second_ip, IpNetwork.blockSize, Ip.width, Ip.mkSame,
      IpNetwork.network, Ip.val, Range.last_ip, if_neg hbmod, if_pos h2B]
    rw [hnet]
    have harith : v + (2 ^ (32 - p) - 1) - 1 = v + 2 ^ (32 - p) - 2 := by omega
    rw [harith]
  · intro v p hp hv
    have hnet : v / 2 ^ (128 - p) * 2 ^ (128 - p) = v :=
      Nat.div_mul_cancel (Nat.dvd_of_mod_eq_zero hv)
    have h2B : (2:Nat) ≤ 2 ^ (128 - p) := by
      calc (2:Nat) = 2 ^ 1 := rfl
      _ ≤ 2 ^ (128 - p) := Nat.pow_le_pow_right (by norm_num) (by omega)
    unfold Range.new Range.canonicalize
    rw [if_neg (by simp [Ip.is_ipv4])]
    rw [if_neg (by
      simp only [ne_eq, not_not, IpNetwork.network, IpNetwork.blockSize, Ip.width,
        Ip.mkSame, Ip.val]
      rw [hnet])]
    simp only [IpNetwork.second_ip, IpNetwork.blockSize, Ip.width, Ip.mkSame,
      IpNetwork.network, Ip.val, Range.last_ip, if_pos h2B]
    rw [hnet]
    have harith : v + (2 ^ (128 - p) - 1) = v + 2 ^ (128 - p) - 1 := by omega
    rw [harith]

/-- Witness for C7 at concrete inputs: `10.1.0.0/16` and `::/126`. -/
theorem range_default_bounds_witness :
    Range.new ⟨Ip.v4 167837696, 16⟩ none none none =
      .ok { subnet := ⟨Ip.v4 167837696, 16⟩, start := some (Ip.v4 167837697),
            end_ := some (Ip.v4 (167837696 + 2 ^ 16 - 2)), gateway := some (Ip.v4 167837697) } ∧
    Range.new ⟨Ip.v6 0, 126⟩ none none none =
      .ok { subnet := ⟨Ip.v6 0, 126⟩, start := some (Ip.v6 1),
            end_ := some (Ip.v6 (0 + 2 ^ 2 - 1)), gateway := some (Ip.v6 1) } :=
  ⟨range_default_bounds.1 167837696 16 (by norm_num) (by norm_num),
   range_default_bounds.2 0 126 (by norm_num) (by norm_num)⟩

/-- Counterexample for C7 as frozen: for the IPv6 subnet `::/126` the
all-ones address is `::3`, so the claimed default end would be `::2`; the
code's default end is `::3`, the all-ones address itself. -/
theorem v6_end_default_is_all_ones :
    Range.new ⟨Ip.v6 0, 126⟩ none none none =
      .ok { subnet := ⟨Ip.v6 0, 126⟩, start := some (Ip.v6 1),
            end_ := some (Ip.v6 3), gateway := some (Ip.v6 1) } ∧
    (Range.new ⟨Ip.v6 0, 126⟩ none none none).map (fun r => r.end_) ≠ .ok (some (Ip.v6 2)) := by
  refine ⟨by rfl, ?_⟩
  rw [show Range.new ⟨Ip.v6 0, 126⟩ none none none =
    .ok { subnet := ⟨Ip.v6 0, 126⟩, start := some (Ip.v6 1),
          end_ := some (Ip.v6 3), gateway := some (Ip.v6 1) } from rfl]
  intro h
  simp only [Except.map, Except.ok.injEq, Option.some.injEq] at h
  exact absurd h (by simp)

/-- Claim C8 (amended): `overlaps` is symmetric for every pair of ranges
whose start/end bounds are resolved (which covers all IPv4 ranges and IPv6
ranges down to /127), and ranges of different families never overlap — in
both directions, with no hypotheses. For ranges with unresolved bounds one
direction can panic while the other returns, see the counterexample. -/
theorem overlaps_symm_and_cross_family :
    (∀ a b : Range, a.start.isSome = true → a.end_.isSome = true →
       b.start.isSome = true → b.end_.isSome = true →
       a.overlaps b = b.overlaps a) ∧
    (∀ a b : Range, a.subnet.addr.is_ipv4 ≠ b.subnet.addr.is_ipv4 →
       a.overlaps b = some false ∧ b.overlaps a = some false) := by
  constructor
  · intro a b has hae hbs hbe
    obtain ⟨sa, hsa⟩ := Option.isSome_iff_exists.mp has
    obtain ⟨ea, hea⟩ := Option.isSome_iff_exists.mp hae
    obtain ⟨sb, hsb⟩ := Option.isSome_iff_exists.mp hbs
    obtain ⟨eb, heb⟩ := Option.isSome_iff_exists.mp hbe
    unfold Range.overlaps
    rw [hsa, hea, hsb, heb]
    by_cases hf : ((a.subnet.addr.is_ipv4 && b.subnet.addr.is_ipv4)
        || (a.subnet.addr.is_ipv6 && b.subnet.addr.is_ipv6)) = true
    · have hf' : ((b.subnet.addr.is_ipv4 && a.subnet.addr.is_ipv4)
          || (b.subnet.addr.is_ipv6 && a.subnet.addr.is_ipv6)) = true := by
        rw [Bool.and_comm, Bool.or_comm, Bool.and_comm]
        rw [Bool.or_comm] at hf
        exact hf
      simp only [hf, hf', Bool.not_true, Bool.false_eq_true, if_false]
      by_cases h1 : a.contains sb = true <;>
        by_cases h2 : a.contains eb = true <;>
          by_cases h3 : b.contains sa = true <;>
            by_cases h4 : b.contains ea = true <;>
              simp [h1, h2, h3, h4]
    · have hf' : ¬ ((b.subnet.addr.is_ipv4 && a.subnet.addr.is_ipv4)
          || (b.subnet.addr.is_ipv6 && a.subnet.addr.is_ipv6)) = true := by
        rw [Bool.and_comm, Bool.or_comm, Bool.and_comm]
        rw [Bool.or_comm] at hf
        exact hf
      simp [hf, hf']
  · intro a b hfam
    have hne : ∀ x y : Range, x.subnet.addr.is_ipv4 ≠ y.subnet.addr.is_ipv4 →
        ((x.subnet.addr.is_ipv4 && y.subnet.addr.is_ipv4)
          || (x.subnet.addr.is_ipv6 && y.subnet.addr.is_ipv6)) = false := by
      intro x y hxy
      cases hx : x.subnet.addr <;> cases hy : y.subnet.addr <;>
        simp_all [Ip.is_ipv4, Ip.is_ipv6]
    constructor
    · unfold Range.overlaps
      rw [hne a b hfam]
      rfl
    · unfold Range.overlaps
      rw [hne b a (fun h => hfam h.symm)]
      rfl

/-- Witness for C8 at concrete inputs: two resolved IPv4 ranges compare
symmetrically, and an IPv4/IPv6 pair yields `some false` both ways. -/
theorem overlaps_symm_and_cross_family_witness :
    Range.overlaps
        { subnet := ⟨Ip.v4 167837696, 16⟩, start := some (Ip.v4 167837697),
          end_ := some (Ip.v4 167837701), gateway := some (Ip.v4 167837700) }
        { subnet := ⟨Ip.v4 167837696, 16⟩, start := some (Ip.v4 167837702),
          end_ := some (Ip.v4 167837707), gateway := some (Ip.v4 167837703) } =
      Range.overlaps
        { subnet := ⟨Ip.v4 167837696, 16⟩, start := some (Ip.v4 167837702),
          end_ := some (Ip.v4 167837707), gateway := some (Ip.v4 167837703) }
        { subnet := ⟨Ip.v4 167837696, 16⟩, start := some (Ip.v4 167837697),
          end_ := some (Ip.v4 167837701), gateway := some (Ip.v4 167837700) } ∧
    Range.overlaps
        { subnet := ⟨Ip.v4 167837696, 16⟩, start := some (Ip.v4 167837697),
          end_ := some (Ip.v4 167837701), gateway := some (Ip.v4 167837700) }
        v6LowRange = some false :=
  ⟨overlaps_symm_and_cross_family.1 _ _ rfl rfl rfl rfl,
   (overlaps_symm_and_cross_family.2 _ _ (by decide)).1⟩

/-- Counterexample for C8 as frozen: both ranges construct successfully, but
`a.overlaps(b)` panics on `b.start.unwrap()` (modelled `none`) while
`b.overlaps(a)` short-circuits to `true` — the two directions disagree. -/
theorem overlaps_asymmetric_panic :
    Range.new ⟨Ip.v6 0, 126⟩ (some (Ip.v6 0)) none none = .ok v6LowRange ∧
    Range.new ⟨Ip.v6 0, 128⟩ none none none = .ok v6SingleRange ∧
    Range.overlaps v6LowRange v6SingleRange = none ∧
    Range.overlaps v6SingleRange v6LowRange = some true :=
  ⟨by rfl, by rfl, by rfl, by rfl⟩

/-- Counterexample for C4 as frozen: `Range::new` and `RangeSet::add` accept
a range whose start `10.1.0.5` exceeds its end `10.1.0.1` (no ordering check
exists), and on that RangeSet the fresh iterator runs PAST the bounds: its
first three yields are `10.1.0.5`, `10.1.0.6`, `10.1.0.7`, although the
claimed yield set {a | start ≤ a ≤ end} is empty — `10.1.0.6` is not in it. -/
theorem rangeiter_backwards_range_escapes :
    Range.new ⟨Ip.v4 167837696, 16⟩ (some (Ip.v4 167837701)) (some (Ip.v4 167837697))
        (some (Ip.v4 167837698)) = .ok backRange ∧
    RangeSet.add [] backRange = some (.ok [backRange]) ∧
    backRange.resolved = some backCRange ∧
    (RangeIter.run 3 ⟨[backCRange], 0, none, none⟩).map (fun x => x.1.addr) =
      [Ip.v4 167837701, Ip.v4 167837702, Ip.v4 167837703] ∧
    ¬ (Ip.ble backCRange.start (Ip.v4 167837702) = true ∧
        Ip.ble (Ip.v4 167837702) backCRange.end_ = true) :=
  ⟨by rfl, by rfl, by rfl, by rfl, by decide⟩

/- ---------- order and family lemmas for the iterator proof ---------- -/

/-- Two addresses of one family with equal values are equal. -/
theorem Ip.eq_of_family_val {a b : Ip} (hf : a.is_ipv6 = b.is_ipv6) (hv : a.val = b.val) :
    a = b := by
  cases a <;> cases b <;> simp_all [Ip.is_ipv6, Ip.val]

/-- `mkSame` only reads the family. -/
theorem Ip.mkSame_congr {a b : Ip} (hf : a.is_ipv6 = b.is_ipv6) (n : Nat) :
    Ip.mkSame a n = Ip.mkSame b n := by
  cases a <;> cases b <;> simp_all [Ip.is_ipv6, Ip.mkSame]

theorem Ip.mkSame_is_ipv6 (a : Ip) (n : Nat) : (Ip.mkSame a n).is_ipv6 = a.is_ipv6 := by
  cases a <;> rfl

theorem Ip.mkSame_val (a : Ip) (n : Nat) : (Ip.mkSame a n).val = n := by
  cases a <;> rfl

theorem Ip.width_eq_of_family {a b : Ip} (hf : a.is_ipv6 = b.is_ipv6) : a.width = b.width := by
  cases a <;> cases b <;> simp_all [Ip.is_ipv6, Ip.width]

theorem Ip.ble_refl (a : Ip) : Ip.ble a a = true := by
  cases a <;> simp [Ip.ble]

theorem Ip.ble_of_family_le {a b : Ip} (hf : a.is_ipv6 = b.is_ipv6) (h : a.val ≤ b.val) :
    Ip.ble a b = true := by
  cases a <;> cases b <;> simp_all [Ip.is_ipv6, Ip.val, Ip.ble, Ip.blt] <;> omega

/-- With fixed-width successors in range, `next_ip` is the in-family
increment. -/
theorem next_ip_of_bounds {a : Ip} (hlo : 2 ^ (a.width - 8) ≤ a.val + 1)
    (hhi : a.val + 1 < 2 ^ a.width) :
    next_ip a = some (Ip.mkSame a (a.val + 1)) := by
  cases a with
  | v4 v =>
    simp only [Ip.width, Ip.val] at hlo hhi
    simp only [next_ip, Ip.mkSame]
    rw [if_pos ⟨by simpa using hlo, by simpa using hhi⟩]
    rfl
  | v6 v =>
    simp only [Ip.width, Ip.val] at hlo hhi
    simp only [next_ip, Ip.mkSame]
    rw [if_pos ⟨by simpa using hlo, by simpa using hhi⟩]
    rfl

/-- Interval membership in value/family form, for family-uniform bounds. -/
theorem inIv_iff {r : CRange} (hfam : r.start.is_ipv6 = r.end_.is_ipv6) (x : Ip) :
    inIv r x ↔ (x.is_ipv6 = r.start.is_ipv6 ∧ r.start.val ≤ x.val ∧ x.val ≤ r.end_.val) := by
  unfold inIv
  cases hs : r.start <;> cases he : r.end_ <;> cases hx : x <;>
    simp_all [Ip.ble, Ip.blt, Ip.is_ipv6, Ip.val] <;> omega

/-- A well-formed range contains its own start and end. -/
theorem inIv_start {r : CRange} (hwf : r.iterWF) : inIv r r.start :=
  ⟨Ip.ble_refl _, Ip.ble_of_family_le hwf.1 hwf.2.1⟩

/-- Disjoint intervals share no point. -/
theorem ivDisj_not_both {r1 r2 : CRange} (h1 : r1.start.is_ipv6 = r1.end_.is_ipv6)
    (h2 : r2.start.is_ipv6 = r2.end_.is_ipv6) (hd : ivDisj r1 r2) {x : Ip}
    (hx1 : inIv r1 x) (hx2 : inIv r2 x) : False := by
  rw [inIv_iff h1] at hx1
  rw [inIv_iff h2] at hx2
  cases hd with
  | inl h =>
    revert h
    cases he1 : r1.end_ <;> cases hs2 : r2.start <;> cases hx : x <;>
      simp_all [Ip.blt, Ip.is_ipv6, Ip.val] <;> omega
  | inr h =>
    revert h
    cases he2 : r2.end_ <;> cases hs1 : r1.start <;> cases hx : x <;>
      simp_all [Ip.blt, Ip.is_ipv6, Ip.val] <;> omega

/- ---------- the iterator traversal development (claim C4) ---------- -/

theorem pairwise_get? {R : CRange → CRange → Prop} {l : List CRange}
    (h : List.Pairwise R l) {i j : Nat} {ri rj : CRange}
    (hi : l.get? i = some ri) (hj : l.get? j = some rj) (hij : i < j) : R ri rj := by
  obtain ⟨hli, hgi⟩ := List.get?_eq_some.mp hi
  obtain ⟨hlj, hgj⟩ := List.get?_eq_some.mp hj
  have hp := List.pairwise_iff_get.mp h ⟨i, hli⟩ ⟨j, hlj⟩ hij
  rwa [hgi, hgj] at hp

theorem sumSizes_drop {l : List CRange} {i : Nat} {r : CRange} (h : l.get? i = some r) :
    sumSizes (l.drop i) = (r.end_.val + 1 - r.start.val) + sumSizes (l.drop (i + 1)) := by
  obtain ⟨hlen, hget⟩ := List.get?_eq_some.mp h
  rw [List.drop_eq_getElem_cons hlen]
  have hg : l[i] = r := hget
  rw [hg]
  simp [sumSizes]

theorem ips_eq_cons {r : CRange} (hwf : r.iterWF) :
    r.ips = r.start :: r.afterIps r.start := by
  obtain ⟨hfam, hle, -, -⟩ := hwf
  unfold CRange.ips CRange.afterIps
  cases hs : r.start <;> cases he : r.end_ <;>
    simp_all [Ip.is_ipv6, Ip.val, Ip.mkSame]
  all_goals rename_i s e
  all_goals {
    have h1 : e + 1 - s = (e - s) + 1 := by omega
    rw [h1, List.range_succ_eq_map, List.map_cons, List.map_map]
    congr 1
    apply List.map_congr_left
    intro k _
    simp [Function.comp, Nat.succ_eq_add_one]
    omega
  }

theorem afterIps_eq_cons {r : CRange} {a : Ip} (hlt : a.val < r.end_.val) :
    r.afterIps a = Ip.mkSame r.start (a.val + 1) :: r.afterIps (Ip.mkSame r.start (a.val + 1)) := by
  unfold CRange.afterIps
  rw [Ip.mkSame_val]
  have h1 : r.end_.val - a.val = (r.end_.val - (a.val + 1)) + 1 := by omega
  rw [h1, List.range_succ_eq_map, List.map_cons, List.map_map]
  congr 1
  apply List.map_congr_left
  intro k _
  simp only [Function.comp, Nat.succ_eq_add_one]
  congr 1
  omega

theorem freeItems_cons_of_gw {r : CRange} {x : Ip} (l : List Ip) (h : x = r.gateway) :
    r.freeItems (x :: l) = r.freeItems l := by
  simp [CRange.freeItems, h]

theorem freeItems_cons_of_ne {r : CRange} {x : Ip} (l : List Ip) (h : ¬ x = r.gateway) :
    r.freeItems (x :: l) = r.item x :: r.freeItems l := by
  simp [CRange.freeItems, h]

theorem specTail_of_get? {ranges : List CRange} {i : Nat} {r : CRange} (a : Ip)
    (h : ranges.get? i = some r) :
    specTail ranges i a =
      r.freeItems (r.afterIps a)
        ++ ((ranges.drop (i + 1)).map (fun r => r.freeItems r.ips)).flatten := by
  unfold specTail
  rw [h]

theorem afterIps_end (r : CRange) : r.afterIps r.end_ = [] := by
  unfold CRange.afterIps
  simp

theorem flatten_drop_succ {α : Type} {ranges : List CRange} {i : Nat} {r : CRange}
    (h : ranges.get? (i + 1) = some r) (f : CRange → List α) :
    ((ranges.drop (i + 1)).map f).flatten = f r ++ ((ranges.drop (i + 2)).map f).flatten := by
  obtain ⟨hlen, hget⟩ := List.get?_eq_some.mp h
  rw [List.drop_eq_getElem_cons hlen]
  have hg : ranges[i + 1] = r := hget
  rw [hg]
  simp

theorem nextAux_cursor (f : Nat) (ranges : List CRange) (i : Nat) (a s0 : Ip) {ri : CRange}
    (hi : ranges.get? i = some ri) :
    RangeIter.nextAux (f + 1) ⟨ranges, i, some a, some s0⟩ =
      (match (if a = ri.end_ then
            match ranges.get? ((i + 1) % ranges.length) with
            | none => none
            | some r2 => some (((i + 1) % ranges.length), r2.start, r2)
          else
            match next_ip a with
            | none => none
            | some nxt => some (i, nxt, ri)) with
        | none => none
        | some (idx, cur2, range2) =>
          if some cur2 = some s0 then none
          else if cur2 = range2.gateway then
            RangeIter.nextAux f ⟨ranges, idx, some cur2, some s0⟩
          else some ((⟨cur2, range2.subnet.prefixLen⟩, range2.gateway),
                     ⟨ranges, idx, some cur2, some s0⟩)) := by
  conv_lhs => rw [RangeIter.nextAux]
  simp only [hi, reduceCtorEq, reduceIte]
  try rfl

theorem nextAux_fresh (f : Nat) (ranges : List CRange) {r0 : CRange}
    (h0 : ranges.get? 0 = some r0) :
    RangeIter.nextAux (f + 1) ⟨ranges, 0, none, none⟩ =
      if r0.start = r0.gateway then
        RangeIter.nextAux f ⟨ranges, 0, some r0.start, some r0.start⟩
      else some ((⟨r0.start, r0.subnet.prefixLen⟩, r0.gateway),
                 ⟨ranges, 0, some r0.start, some r0.start⟩) := by
  conv_lhs => rw [RangeIter.nextAux]
  simp only [h0]

theorem nextAux_wrap (f : Nat) (ranges : List CRange) (i : Nat) (s0 : Ip) {ri r2 : CRange}
    (hi : ranges.get? i = some ri) (h2 : ranges.get? ((i + 1) % ranges.length) = some r2) :
    RangeIter.nextAux (f + 1) ⟨ranges, i, some ri.end_, some s0⟩ =
      (if r2.start = s0 then none
       else if r2.start = r2.gateway then
         RangeIter.nextAux f ⟨ranges, (i + 1) % ranges.length, some r2.start, some s0⟩
       else some ((⟨r2.start, r2.subnet.prefixLen⟩, r2.gateway),
                  ⟨ranges, (i + 1) % ranges.length, some r2.start, some s0⟩)) := by
  rw [nextAux_cursor f ranges i ri.end_ s0 hi]
  rw [if_pos rfl, h2]
  simp only [Option.some.injEq]

theorem nextAux_inc (f : Nat) (ranges : List CRange) (i : Nat) (a nxt s0 : Ip) {ri : CRange}
    (hi : ranges.get? i = some ri) (hend : ¬ a = ri.end_) (hnext : next_ip a = some nxt) :
    RangeIter.nextAux (f + 1) ⟨ranges, i, some a, some s0⟩ =
      (if nxt = s0 then none
       else if nxt = ri.gateway then RangeIter.nextAux f ⟨ranges, i, some nxt, some s0⟩
       else some ((⟨nxt, ri.subnet.prefixLen⟩, ri.gateway), ⟨ranges, i, some nxt, some s0⟩)) := by
  rw [nextAux_cursor f ranges i a s0 hi]
  rw [if_neg hend, hnext]
  simp only [Option.some.injEq]

theorem remFrom_of_get? {ranges : List CRange} {i : Nat} {r : CRange} (a : Ip)
    (h : ranges.get? i = some r) :
    remFrom ranges i a = (r.end_.val - a.val) + sumSizes (ranges.drop (i + 1)) := by
  unfold remFrom
  rw [h]

theorem nextAux_step (ranges : List CRange) (r0 : CRange) (rest : List CRange)
    (h0 : ranges = r0 :: rest) (hwf : ∀ r ∈ ranges, r.iterWF)
    (hdisj : List.Pairwise ivDisj ranges) :
    ∀ m : Nat, ∀ (i : Nat) (a : Ip) (ri : CRange) (fuel : Nat),
      ranges.get? i = some ri → inIv ri a → remFrom ranges i a = m → m + 1 ≤ fuel →
      (specTail ranges i a = [] ∧
        RangeIter.nextAux fuel ⟨ranges, i, some a, some r0.start⟩ = none) ∨
      (∃ (j : Nat) (b : Ip) (rj : CRange), ranges.get? j = some rj ∧ inIv rj b ∧
        remFrom ranges j b < m ∧
        specTail ranges i a = rj.item b :: specTail ranges j b ∧
        RangeIter.nextAux fuel ⟨ranges, i, some a, some r0.start⟩ =
          some (rj.item b, ⟨ranges, j, some b, some r0.start⟩)) := by
  have hget0 : ranges.get? 0 = some r0 := by rw [h0]; rfl
  have hwf0 : r0.iterWF := hwf r0 (by rw [h0]; exact List.mem_cons_self _ _)
  intro m
  induction m using Nat.strong_induction_on with
  | _ m IH =>
  intro i a ri fuel hi ha hm hfuel
  have hwf_i : ri.iterWF := hwf ri (List.get?_mem hi)
  obtain ⟨hlen_i, -⟩ := List.get?_eq_some.mp hi
  obtain ⟨f, rfl⟩ : ∃ f, fuel = f + 1 := ⟨fuel - 1, by omega⟩
  have hrem_i := remFrom_of_get? a hi
  by_cases hend : a = ri.end_
  · -- cursor sits on the range's end: wrap to the next range
    subst hend
    by_cases hlast : i + 1 = ranges.length
    · -- last range: wrap target is range 0's start = start_ip, iterator ends
      have hmod : (i + 1) % ranges.length = 0 := by rw [hlast]; exact Nat.mod_self _
      have h2 : ranges.get? ((i + 1) % ranges.length) = some r0 := by rw [hmod]; exact hget0
      rw [nextAux_wrap f ranges i r0.start hi h2, if_pos rfl]
      left
      refine ⟨?_, rfl⟩
      rw [specTail_of_get? ri.end_ hi, afterIps_end]
      have hdrop : ranges.drop (i + 1) = [] := by
        rw [hlast]
        exact List.drop_length _
      rw [hdrop]
      simp [CRange.freeItems]
    · -- not the last range: move to range i+1's start
      have hlt : i + 1 < ranges.length := by omega
      have hmod : (i + 1) % ranges.length = i + 1 := Nat.mod_eq_of_lt hlt
      obtain ⟨r', hr'⟩ : ∃ r', ranges.get? (i + 1) = some r' :=
        ⟨ranges.get ⟨i + 1, hlt⟩, List.get?_eq_get hlt⟩
      have h2 : ranges.get? ((i + 1) % ranges.length) = some r' := by rw [hmod]; exact hr'
      have hwf' : r'.iterWF := hwf r' (List.get?_mem hr')
      have hinIv' : inIv r' r'.start := inIv_start hwf'
      have hne0 : ¬ r'.start = r0.start := by
        intro heq
        have hd : ivDisj r0 r' := pairwise_get? hdisj hget0 hr' (by omega)
        exact ivDisj_not_both hwf0.1 hwf'.1 hd (heq ▸ inIv_start hwf0) hinIv'
      rw [nextAux_wrap f ranges i r0.start hi h2, hmod, if_neg hne0]
      have hrem' := remFrom_of_get? r'.start hr'
      have hsum := sumSizes_drop hr'
      have hse : r'.start.val ≤ r'.end_.val := hwf'.2.1
      have hmlt : remFrom ranges (i + 1) r'.start < m := by
        rw [hrem']
        rw [hrem_i, hsum] at hm
        omega
      have hspec : specTail ranges i ri.end_ =
          r'.freeItems r'.ips
            ++ ((ranges.drop (i + 2)).map (fun r => r.freeItems r.ips)).flatten := by
        rw [specTail_of_get? ri.end_ hi, afterIps_end, flatten_drop_succ hr']
        simp [CRange.freeItems]
      by_cases hgw : r'.start = r'.gateway
      · rw [if_pos hgw]
        have hspec2 : specTail ranges i ri.end_ = specTail ranges (i + 1) r'.start := by
          rw [hspec, specTail_of_get? r'.start hr']
          congr 1
          rw [ips_eq_cons hwf', freeItems_cons_of_gw _ hgw]
        have hstep := IH (remFrom ranges (i + 1) r'.start) hmlt (i + 1) r'.start r' f hr'
          hinIv' rfl (by omega)
        rcases hstep with ⟨he, hn⟩ | ⟨j, b, rj, hj, hb, hr, ht, hs⟩
        · exact Or.inl ⟨by rw [hspec2, he], hn⟩
        · exact Or.inr ⟨j, b, rj, hj, hb, by omega, by rw [hspec2, ht], hs⟩
      · rw [if_neg hgw]
        right
        refine ⟨i + 1, r'.start, r', hr', hinIv', hmlt, ?_, rfl⟩
        rw [hspec, specTail_of_get? r'.start hr', ips_eq_cons hwf',
          freeItems_cons_of_ne _ hgw]
        rfl
  · -- advance within the range
    have hfam_a := (inIv_iff hwf_i.1 a).mp ha
    have hlt : a.val < ri.end_.val := by
      rcases Nat.lt_or_ge a.val ri.end_.val with h | h
      · exact h
      · exact absurd (Ip.eq_of_family_val (by rw [hfam_a.1, hwf_i.1]) (by omega)) hend
    have hwidth : a.width = ri.start.width := Ip.width_eq_of_family hfam_a.1
    have hnext : next_ip a = some (Ip.mkSame a (a.val + 1)) := by
      apply next_ip_of_bounds
      · rw [hwidth]
        have h1 := hwf_i.2.2.2
        have h2 := hfam_a.2.1
        omega
      · rw [hwidth]
        have h1 := hwf_i.2.2.1
        omega
    have ha'fam : (Ip.mkSame a (a.val + 1)).is_ipv6 = ri.start.is_ipv6 := by
      rw [Ip.mkSame_is_ipv6, hfam_a.1]
    have ha'val : (Ip.mkSame a (a.val + 1)).val = a.val + 1 := Ip.mkSame_val _ _
    have hinIv' : inIv ri (Ip.mkSame a (a.val + 1)) :=
      (inIv_iff hwf_i.1 _).mpr ⟨ha'fam, by omega, by omega⟩
    have hne0 : ¬ Ip.mkSame a (a.val + 1) = r0.start := by
      intro heq
      by_cases hizero : i = 0
      · subst hizero
        rw [hi] at hget0
        injection hget0 with hri
        have hv : (Ip.mkSame a (a.val + 1)).val = r0.start.val := by rw [heq]
        rw [ha'val] at hv
        have h3 : ri.start.val ≤ a.val := hfam_a.2.1
        rw [hri] at h3
        omega
      · have hd : ivDisj r0 ri := pairwise_get? hdisj hget0 hi (by omega)
        exact ivDisj_not_both hwf0.1 hwf_i.1 hd (heq ▸ inIv_start hwf0) hinIv'
    rw [nextAux_inc f ranges i a (Ip.mkSame a (a.val + 1)) r0.start hi hend hnext,
      if_neg hne0]
    have hrem' := remFrom_of_get? (Ip.mkSame a (a.val + 1)) hi
    have hmlt : remFrom ranges i (Ip.mkSame a (a.val + 1)) < m := by
      rw [hrem', ha'val]
      rw [hrem_i] at hm
      omega
    have hmk : Ip.mkSame ri.start (a.val + 1) = Ip.mkSame a (a.val + 1) :=
      Ip.mkSame_congr hfam_a.1.symm _
    have hafter : ri.afterIps a
        = Ip.mkSame a (a.val + 1) :: ri.afterIps (Ip.mkSame a (a.val + 1)) := by
      rw [afterIps_eq_cons hlt, hmk]
    by_cases hgw : Ip.mkSame a (a.val + 1) = ri.gateway
    · rw [if_pos hgw]
      have hspec2 : specTail ranges i a = specTail ranges i (Ip.mkSame a (a.val + 1)) := by
        rw [specTail_of_get? a hi, specTail_of_get? (Ip.mkSame a (a.val + 1)) hi, hafter,
          freeItems_cons_of_gw _ hgw]
      have hstep := IH (remFrom ranges i (Ip.mkSame a (a.val + 1))) hmlt i
        (Ip.mkSame a (a.val + 1)) ri f hi hinIv' rfl (by omega)
      rcases hstep with ⟨he, hn⟩ | ⟨j, b, rj, hj, hb, hr, ht, hs⟩
      · exact Or.inl ⟨by rw [hspec2, he], hn⟩
      · exact Or.inr ⟨j, b, rj, hj, hb, by omega, by rw [hspec2, ht], hs⟩
    · rw [if_neg hgw]
      right
      refine ⟨i, Ip.mkSame a (a.val + 1), ri, hi, hinIv', hmlt, ?_, rfl⟩
      rw [specTail_of_get? a hi, specTail_of_get? (Ip.mkSame a (a.val + 1)) hi, hafter,
        freeItems_cons_of_ne _ hgw]
      rfl

theorem run_eq_specTail (ranges : List CRange) (r0 : CRange) (rest : List CRange)
    (h0 : ranges = r0 :: rest) (hwf : ∀ r ∈ ranges, r.iterWF)
    (hdisj : List.Pairwise ivDisj ranges) :
    ∀ m : Nat, ∀ (i : Nat) (a : Ip) (ri : CRange) (fuel : Nat),
      ranges.get? i = some ri → inIv ri a → remFrom ranges i a = m → m + 2 ≤ fuel →
      RangeIter.run fuel ⟨ranges, i, some a, some r0.start⟩ = specTail ranges i a := by
  intro m
  induction m using Nat.strong_induction_on with
  | _ m IH =>
  intro i a ri fuel hi ha hm hfuel
  obtain ⟨f, rfl⟩ : ∃ f, fuel = f + 1 := ⟨fuel - 1, by omega⟩
  conv_lhs => rw [RangeIter.run]
  rcases nextAux_step ranges r0 rest h0 hwf hdisj m i a ri (f + 1) hi ha hm (by omega) with
    ⟨he, hn⟩ | ⟨j, b, rj, hj, hb, hr, ht, hs⟩
  · rw [hn, he]
  · rw [hs, ht]
    show rj.item b :: RangeIter.run f ⟨ranges, j, some b, some r0.start⟩ = _
    rw [IH (remFrom ranges j b) (hm ▸ hr) j b rj f hj hb rfl (by omega)]

theorem run_fresh_eq_specRun (ranges : List CRange) (r0 : CRange) (rest : List CRange)
    (h0 : ranges = r0 :: rest) (hwf : ∀ r ∈ ranges, r.iterWF)
    (hdisj : List.Pairwise ivDisj ranges) (fuel : Nat)
    (hfuel : sumSizes ranges + 2 ≤ fuel) :
    RangeIter.run fuel ⟨ranges, 0, none, none⟩ = specRun ranges := by
  have hget0 : ranges.get? 0 = some r0 := by rw [h0]; rfl
  have hwf0 : r0.iterWF := hwf r0 (by rw [h0]; exact List.mem_cons_self _ _)
  have hs0 : inIv r0 r0.start := inIv_start hwf0
  obtain ⟨f, rfl⟩ : ∃ f, fuel = f + 1 := ⟨fuel - 1, by omega⟩
  have hrem0 := remFrom_of_get? r0.start hget0
  have hsum0 := sumSizes_drop hget0
  rw [List.drop_zero] at hsum0
  have hm0 : remFrom ranges 0 r0.start + 1 ≤ sumSizes ranges := by
    rw [hrem0]
    have hse := hwf0.2.1
    omega
  have hspecRun : specRun ranges =
      r0.freeItems r0.ips
        ++ ((ranges.drop 1).map (fun r => r.freeItems r.ips)).flatten := by
    unfold specRun
    rw [h0]
    simp
  conv_lhs => rw [RangeIter.run]
  rw [nextAux_fresh f ranges hget0]
  by_cases hgw : r0.start = r0.gateway
  · rw [if_pos hgw]
    have hsR : specRun ranges = specTail ranges 0 r0.start := by
      rw [hspecRun, specTail_of_get? r0.start hget0, ips_eq_cons hwf0,
        freeItems_cons_of_gw _ hgw]
    rcases nextAux_step ranges r0 rest h0 hwf hdisj (remFrom ranges 0 r0.start) 0 r0.start r0
        f hget0 hs0 rfl (by omega) with ⟨he, hn⟩ | ⟨j, b, rj, hj, hb, hr, ht, hs⟩
    · rw [hn, hsR, he]
    · rw [hs, hsR, ht]
      show rj.item b :: RangeIter.run f ⟨ranges, j, some b, some r0.start⟩ = _
      rw [run_eq_specTail ranges r0 rest h0 hwf hdisj (remFrom ranges j b) j b rj f hj hb
        rfl (by omega)]
  · rw [if_neg hgw]
    show r0.item r0.start :: RangeIter.run f ⟨ranges, 0, some r0.start, some r0.start⟩ = _
    rw [run_eq_specTail ranges r0 rest h0 hwf hdisj (remFrom ranges 0 r0.start) 0 r0.start r0
      f hget0 hs0 rfl (by omega)]
    rw [hspecRun, specTail_of_get? r0.start hget0, ips_eq_cons hwf0,
      freeItems_cons_of_ne _ hgw]
    rfl

theorem freeItems_map_addr (r : CRange) (l : List Ip) :
    (r.freeItems l).map (fun p => p.1.addr) = l.filter (fun x => x ≠ r.gateway) := by
  unfold CRange.freeItems CRange.item
  rw [List.map_map]
  have h : ((fun p : IpNetwork × Ip => p.1.addr)
      ∘ (fun x => (⟨⟨x, r.subnet.prefixLen⟩, r.gateway⟩ : IpNetwork × Ip)))
      = fun x => x := rfl
  rw [h]
  simp

theorem specRun_map_addr (ranges : List CRange) :
    (specRun ranges).map (fun p => p.1.addr) =
      (ranges.map (fun r => r.ips.filter (fun x => x ≠ r.gateway))).flatten := by
  unfold specRun
  rw [List.map_flatten, List.map_map]
  congr 1
  apply List.map_congr_left
  intro r _
  exact freeItems_map_addr r r.ips

theorem mem_ips_iff {r : CRange} (hwf : r.iterWF) (x : Ip) :
    x ∈ r.ips ↔ (Ip.ble r.start x = true ∧ Ip.ble x r.end_ = true) := by
  have hiv : (Ip.ble r.start x = true ∧ Ip.ble x r.end_ = true) ↔ inIv r x := Iff.rfl
  have hfam := hwf.1
  rw [hiv, inIv_iff hfam]
  unfold CRange.ips
  clear hiv hwf
  cases hs : r.start <;> cases he : r.end_ <;> cases hx : x <;>
    simp_all [Ip.is_ipv6, Ip.val, List.mem_map, List.mem_range]
  all_goals rename_i s e v
  all_goals {
    constructor
    · rintro ⟨k, hk, rfl⟩
      omega
    · rintro ⟨h1, h2⟩
      exact ⟨v - s, by omega, by omega⟩
  }

theorem specRun_mem (ranges : List CRange) (hwf : ∀ r ∈ ranges, r.iterWF) (x : Ip) :
    x ∈ (specRun ranges).map (fun p => p.1.addr) ↔
      ∃ r ∈ ranges, Ip.ble r.start x = true ∧ Ip.ble x r.end_ = true ∧ x ≠ r.gateway := by
  rw [specRun_map_addr, List.mem_flatten]
  constructor
  · rintro ⟨l, hl, hx⟩
    rw [List.mem_map] at hl
    obtain ⟨r, hr, rfl⟩ := hl
    rw [List.mem_filter] at hx
    have hm := (mem_ips_iff (hwf r hr) x).mp hx.1
    refine ⟨r, hr, hm.1, hm.2, by simpa using hx.2⟩
  · rintro ⟨r, hr, h1, h2, h3⟩
    refine ⟨r.ips.filter (fun y => y ≠ r.gateway), List.mem_map.mpr ⟨r, hr, rfl⟩, ?_⟩
    rw [List.mem_filter]
    exact ⟨(mem_ips_iff (hwf r hr) x).mpr ⟨h1, h2⟩, by simpa⟩

theorem specRun_nodup (ranges : List CRange) (hwf : ∀ r ∈ ranges, r.iterWF)
    (hdisj : List.Pairwise ivDisj ranges) :
    ((specRun ranges).map (fun p => p.1.addr)).Nodup := by
  rw [specRun_map_addr, List.nodup_flatten]
  constructor
  · intro l hl
    rw [List.mem_map] at hl
    obtain ⟨r, hr, rfl⟩ := hl
    apply List.Nodup.filter
    unfold CRange.ips
    cases hs : r.start <;> cases he : r.end_ <;> simp
    all_goals {
      apply List.Nodup.map
      · intro x y hxy
        simp only [Ip.v4.injEq, Ip.v6.injEq] at hxy
        omega
      · exact List.nodup_range _
    }
  · rw [List.pairwise_map]
    refine List.Pairwise.imp_of_mem ?_ hdisj
    intro r1 r2 h1 h2 hd
    intro x hx1 hx2
    rw [List.mem_filter] at hx1 hx2
    have m1 := (mem_ips_iff (hwf r1 h1) x).mp hx1.1
    have m2 := (mem_ips_iff (hwf r2 h2) x).mp hx2.1
    exact ivDisj_not_both (hwf r1 h1).1 (hwf r2 h2).1 hd m1 m2

/-- Claim C4 (amended): on a non-empty RangeSet whose member ranges have
in-order, family-uniform bounds high enough for `next_ip`'s fixed-width
re-render (see C5) and pairwise disjoint `[start, end]` intervals (the
RangeSet invariant), a fresh iterator with enough fuel yields exactly every
member range's `[start, end]` addresses except its own gateway, in range
order and ascending within each range (first conjunct, against the
spec-side `specRun`), so each free address appears exactly once (second and
third conjuncts) — and the run is stable under extra fuel, i.e. the
iterator yields nothing further after returning to its start (last
conjunct). -/
theorem rangeiter_visits_free_addresses_once
    (ranges : List CRange) (r0 : CRange) (rest : List CRange)
    (h0 : ranges = r0 :: rest)
    (hwf : ∀ r ∈ ranges, r.iterWF)
    (hdisj : List.Pairwise ivDisj ranges)
    (fuel : Nat) (hfuel : sumSizes ranges + 2 ≤ fuel) :
    RangeIter.run fuel ⟨ranges, 0, none, none⟩ = specRun ranges ∧
    (∀ x : Ip, x ∈ (RangeIter.run fuel ⟨ranges, 0, none, none⟩).map (fun p => p.1.addr) ↔
      ∃ r ∈ ranges, Ip.ble r.start x = true ∧ Ip.ble x r.end_ = true ∧ x ≠ r.gateway) ∧
    ((RangeIter.run fuel ⟨ranges, 0, none, none⟩).map (fun p => p.1.addr)).Nodup ∧
    (∀ g : Nat, RangeIter.run (fuel + g) ⟨ranges, 0, none, none⟩ =
      RangeIter.run fuel ⟨ranges, 0, none, none⟩) := by
  have hrun := run_fresh_eq_specRun ranges r0 rest h0 hwf hdisj fuel hfuel
  refine ⟨hrun, ?_, ?_, ?_⟩
  · intro x
    rw [hrun]
    exact specRun_mem ranges hwf x
  · rw [hrun]
    exact specRun_nodup ranges hwf hdisj
  · intro g
    rw [hrun, run_fresh_eq_specRun ranges r0 rest h0 hwf hdisj (fuel + g) (by omega)]

theorem rangeiter_visits_free_addresses_once_witness :
    RangeIter.run 10 ⟨[demoRange], 0, none, none⟩ = specRun [demoRange] ∧
    specRun [demoRange] =
      [(⟨Ip.v4 167837697, 16⟩, Ip.v4 167837700), (⟨Ip.v4 167837698, 16⟩, Ip.v4 167837700),
       (⟨Ip.v4 167837699, 16⟩, Ip.v4 167837700), (⟨Ip.v4 167837701, 16⟩, Ip.v4 167837700)] :=
  ⟨(rangeiter_visits_free_addresses_once [demoRange] demoRange [] rfl (by decide)
      (by decide) 10 (by decide)).1, by rfl⟩

end HostLocal
